import Mathlib

/-!
Shallow embedding of `serial-meter.c`, a decoder for the serial protocol of
the TekPower TP4000ZC digital multimeter, together with theorems about its
framing state machine (`read_packet`), digit decoding (`decode_digit`),
display rendering (`print_display_number`) and attribute extraction
(`decode_attributes`).

Modelling conventions: bytes and nibbles are `Nat` with the C bit
operations written with `&&&`, `|||`, `^^^`, `<<<`, `>>>`; the 14-slot
`unsigned char buf[]` frame buffer is a `List Nat` indexed as the C array
is, with `buf[i]` embedded as `nib buf i = buf.getD i 0`; the blocking
`read(fd, &byte, 1)` byte source is embedded as a `List Nat` of incoming
bytes, consumed one element per loop iteration; `printf` output is
embedded as a list of output tokens.
-/

namespace SerialMeter

/-- The 4-bit sequence tag of a protocol byte: `(byte >> 4) & 0xF` in the C. -/
def tag (b : Nat) : Nat := (b >>> 4) &&& 0xF

/-- Outcome of one call to `read_packet`.  In the C, `complete` is return
value `0`, `eof` is `exit(0)`, and every other outcome is return value `-1`
(power-on message, invalid byte, short frame, or too many bytes). -/
inductive ReadResult where
  | eof
  | powerOn
  | invalidByte
  | shortFrame
  | complete
  | tooLong
deriving DecidableEq

/-- The C return code of a `read_packet` outcome: `0` for a complete frame,
`-1` otherwise (`eof` never returns in the C; we give it `-1` as well). -/
def return_code : ReadResult → Int
  | ReadResult.complete => 0
  | _ => -1

/-- The byte-consuming loop of `read_packet` (`for (x = 0; x < 15; x++)` with
`bytes_read` counting accepted bytes).  The fuel argument is the number of
remaining loop iterations; when it reaches `0` the C code falls out of the
loop and reports that too many bytes were read. -/
def readLoop : Nat → List Nat → Nat → List Nat → ReadResult × List Nat × List Nat
  | 0, buf, _, input => (ReadResult.tooLong, buf, input)
  | _ + 1, buf, _, [] => (ReadResult.eof, buf, [])
  | fuel + 1, buf, bytesRead, b :: rest =>
    if b = 0 then (ReadResult.powerOn, buf, rest)
    else if tag b = 0 ∨ tag b = 0xF then (ReadResult.invalidByte, buf, rest)
    else
      let buf2 := buf.set (tag b - 1) (b &&& 0xF)
      if tag b = 0xE then
        if bytesRead + 1 < 13 then (ReadResult.shortFrame, buf2, rest)
        else (ReadResult.complete, buf2, rest)
      else readLoop fuel buf2 (bytesRead + 1) rest

/-- `read_packet` from the C source: zero the 14-slot frame buffer, then pull
up to 15 bytes from the source, storing the low nibble of each valid byte at
index `tag - 1`, and stop on a zero byte, an invalid tag, or the terminal
tag `0xE`.  Returns the outcome, the frame buffer, and the unconsumed rest
of the byte stream. -/
def read_packet (input : List Nat) : ReadResult × List Nat × List Nat :=
  readLoop 15 (List.replicate 14 0) 0 input

/-- Array access `buf[n]` on the frame buffer. -/
def nib (buf : List Nat) (n : Nat) : Nat := buf.getD n 0

/-- The frame buffer obtained from `buf` after storing each byte of `bs` at
index `tag - 1` (the effect of the accepted bytes of the `read_packet` loop). -/
def applyBytes (buf : List Nat) (bs : List Nat) : List Nat :=
  bs.foldl (fun bf b => bf.set (tag b - 1) (b &&& 0xF)) buf

/-- The `lcd_segments` table from the C source: the 12 known 7-segment codes,
in order, for the symbols 0–9, "L" (out of range), and blank. -/
def lcd_segments : List Nat :=
  [0x7D, 0x05, 0x5B, 0x1F, 0x27, 0x3E, 0x7E, 0x15, 0x7F, 0x3F, 0x68, 0x00]

/-- The packed segment code of a digit pair:
`value = ((byte1 & 0x7) << 4) | byte2` in the C. -/
def segment_code (byte1 byte2 : Nat) : Nat := ((byte1 &&& 0x7) <<< 4) ||| byte2

/-- The linear search of `decode_digit` over the `lcd_segments` table:
the first index whose entry equals `value`, or `-1` when none matches. -/
def digit_lookup (value : Nat) : Int :=
  match (List.range 12).find? (fun n => lcd_segments.getD n 0 = value) with
  | some n => (n : Int)
  | none => -1

/-- `decode_digit` from the C source: pack the two nibbles into a segment
code and look it up in the table; `-1` means no known symbol matched. -/
def decode_digit (byte1 byte2 : Nat) : Int :=
  digit_lookup (segment_code byte1 byte2)

/-- One token of `printf` output from `print_display_number`: the minus
sign, a decimal point, a decimal digit, the letter "L", a blank, the "?"
fallback, or the "Unknown digit" error message with the two observed
nibbles. -/
inductive OutTok where
  | minus
  | dot
  | dig (d : Int)
  | symL
  | blank
  | question
  | unknown (a b : Nat)
deriving DecidableEq

/-- The sign/decimal-point output that `print_display_number` emits before
the digit of the pair starting at index `n`: "-" when `n == 1` and the high
bit of `buf[n]` is set, "." when `n != 1` and that bit is set, else nothing. -/
def preTok (buf : List Nat) (n : Nat) : List OutTok :=
  if nib buf n &&& 0x8 ≠ 0 then (if n = 1 then [OutTok.minus] else [OutTok.dot]) else []

/-- The token printed for a decoded digit value: `%d` below 10, "L" for 10,
a blank for 11, and "?" above 11. -/
def digitTok (val : Int) : OutTok :=
  if val < 10 then OutTok.dig val
  else if val = 10 then OutTok.symL
  else if val = 11 then OutTok.blank
  else OutTok.question

/-- The `for (n = 1; n < 8; n += 2)` loop of `print_display_number`, over the
list of pair start indices still to process: emit the sign/decimal prefix,
decode the pair, and on an unknown digit print the error message and return
`-1` immediately, abandoning the remaining pairs. -/
def display_loop (buf : List Nat) : List Nat → List OutTok × Int
  | [] => ([], 0)
  | n :: rest =>
    let val := decode_digit (nib buf n) (nib buf (n + 1))
    if val = -1 then
      (preTok buf n ++ [OutTok.unknown (nib buf n) (nib buf (n + 1))], -1)
    else
      let next := display_loop buf rest
      (preTok buf n ++ digitTok val :: next.1, next.2)

/-- `print_display_number` from the C source: render the four digit pairs at
frame indices (1,2), (3,4), (5,6), (7,8); the result is the emitted output
and the return code (`0` on success, `-1` on the first unknown digit). -/
def print_display_number (buf : List Nat) : List OutTok × Int :=
  display_loop buf [1, 3, 5, 7]

/-- The frame index holding logical attribute bit `bit`:
`(bit < 4) ? 0 : bit / 4 + 8` in the C. -/
def attrByte (bit : Nat) : Nat := if bit < 4 then 0 else bit / 4 + 8

/-- `decode_attributes` from the C source: build the 24-bit attribute mask,
taking logical bit `bit` from bit `bit % 4` of the nibble at frame index
`attrByte bit`. -/
def decode_attributes (buf : List Nat) : Nat :=
  (List.range 24).foldl
    (fun attributes bit =>
      if nib buf (attrByte bit) &&& (1 <<< (bit % 4)) ≠ 0 then
        attributes ||| (1 <<< bit)
      else attributes)
    0

/-- ATTR_UNK_11 from the C source, `1 << 0`. -/
def ATTR_UNK_11 : Nat := 1 <<< 0

/-- ATTR_AUTO from the C source, `1 << 1`. -/
def ATTR_AUTO : Nat := 1 <<< 1

/-- ATTR_DC from the C source, `1 << 2`. -/
def ATTR_DC : Nat := 1 <<< 2

/-- ATTR_AC from the C source, `1 << 3`. -/
def ATTR_AC : Nat := 1 <<< 3

/-- ATTR_DIODE from the C source, `1 << 4`. -/
def ATTR_DIODE : Nat := 1 <<< 4

/-- ATTR_KILO from the C source, `1 << 5`. -/
def ATTR_KILO : Nat := 1 <<< 5

/-- ATTR_NANO from the C source, `1 << 6`. -/
def ATTR_NANO : Nat := 1 <<< 6

/-- ATTR_MICRO from the C source, `1 << 7`. -/
def ATTR_MICRO : Nat := 1 <<< 7

/-- ATTR_BEEP from the C source, `1 << 8`. -/
def ATTR_BEEP : Nat := 1 <<< 8

/-- ATTR_MEGA from the C source, `1 << 9`. -/
def ATTR_MEGA : Nat := 1 <<< 9

/-- ATTR_PERCENT from the C source, `1 << 10`. -/
def ATTR_PERCENT : Nat := 1 <<< 10

/-- ATTR_MILI from the C source, `1 << 11`. -/
def ATTR_MILI : Nat := 1 <<< 11

/-- ATTR_HOLD from the C source, `1 << 12`. -/
def ATTR_HOLD : Nat := 1 <<< 12

/-- ATTR_REL from the C source, `1 << 13`. -/
def ATTR_REL : Nat := 1 <<< 13

/-- ATTR_OHMS from the C source, `1 << 14`. -/
def ATTR_OHMS : Nat := 1 <<< 14

/-- ATTR_FARAD from the C source, `1 << 15`. -/
def ATTR_FARAD : Nat := 1 <<< 15

/-- ATTR_UNK_D1 from the C source, `1 << 16`. -/
def ATTR_UNK_D1 : Nat := 1 <<< 16

/-- ATTR_HERTZ from the C source, `1 << 17`. -/
def ATTR_HERTZ : Nat := 1 <<< 17

/-- ATTR_VOLTS from the C source, `1 << 18`. -/
def ATTR_VOLTS : Nat := 1 <<< 18

/-- ATTR_AMPS from the C source, `1 << 19`. -/
def ATTR_AMPS : Nat := 1 <<< 19

/-- ATTR_UNK_E1 from the C source, `1 << 20`. -/
def ATTR_UNK_E1 : Nat := 1 <<< 20

/-- ATTR_UNK_E2 from the C source, `1 << 21`. -/
def ATTR_UNK_E2 : Nat := 1 <<< 21

/-- ATTR_DEGC from the C source, `1 << 22`. -/
def ATTR_DEGC : Nat := 1 <<< 22

/-- ATTR_UNK_E8 from the C source, `1 << 23`. -/
def ATTR_UNK_E8 : Nat := 1 <<< 23

/-- One iteration of the body of `main` applied to a frame delivered by
`read_packet`: print the display number; when it reports an unknown digit
(`-1`), skip the attributes (`continue`), otherwise decode and print them. -/
def main_step (buf : List Nat) : List OutTok × Option Nat :=
  let pd := print_display_number buf
  if pd.2 ≠ 0 then (pd.1, none) else (pd.1, some (decode_attributes buf))

end SerialMeter

namespace SerialMeter

/-- A byte that the `read_packet` loop accepts and that does not end the
frame: nonzero tag in range 1–13. -/
def midByte (b : Nat) : Prop := b < 256 ∧ 1 ≤ tag b ∧ tag b ≤ 13

instance (b : Nat) : Decidable (midByte b) := by
  unfold midByte; infer_instance

theorem midByte_ne_zero {b : Nat} (h : midByte b) : b ≠ 0 := by
  rintro rfl
  simp [midByte, tag] at h

theorem nib_set_ne (buf : List Nat) {i j : Nat} (v : Nat) (h : i ≠ j) :
    nib (buf.set i v) j = nib buf j := by
  unfold nib
  rw [List.getD_eq_getElem?_getD, List.getD_eq_getElem?_getD, List.getElem?_set_ne h]

theorem nib_set_eq (buf : List Nat) {i : Nat} (v : Nat) (h : i < buf.length) :
    nib (buf.set i v) i = v := by
  unfold nib
  rw [List.getD_eq_getElem?_getD, List.getElem?_set_self h]
  rfl

theorem applyBytes_length (bs : List Nat) :
    ∀ buf : List Nat, (applyBytes buf bs).length = buf.length := by
  induction bs with
  | nil => intro buf; rfl
  | cons b t ih =>
    intro buf
    show (applyBytes (buf.set (tag b - 1) (b &&& 0xF)) t).length = _
    rw [ih, List.length_set]

theorem applyBytes_nib_not_mem (bs : List Nat) :
    ∀ buf j, (∀ b ∈ bs, 1 ≤ tag b) → (j + 1) ∉ bs.map tag →
      nib (applyBytes buf bs) j = nib buf j := by
  induction bs with
  | nil => intro buf j _ _; rfl
  | cons b t ih =>
    intro buf j hall hmem
    simp only [List.map_cons, List.mem_cons, not_or] at hmem
    have hb1 : 1 ≤ tag b := hall b (by simp)
    have hne : tag b - 1 ≠ j := by omega
    show nib (applyBytes (buf.set (tag b - 1) (b &&& 0xF)) t) j = nib buf j
    rw [ih _ j (fun y hy => hall y (by simp [hy])) hmem.2, nib_set_ne _ _ hne]

theorem applyBytes_nib_mem (bs : List Nat) :
    ∀ buf, buf.length = 14 → (∀ b ∈ bs, 1 ≤ tag b ∧ tag b ≤ 14) →
      (bs.map tag).Nodup → ∀ b ∈ bs, nib (applyBytes buf bs) (tag b - 1) = b &&& 0xF := by
  induction bs with
  | nil => intro buf _ _ _ b hb; cases hb
  | cons z t ih =>
    intro buf hlen hall hnd b hb
    have hz := hall z (by simp)
    simp only [List.map_cons, List.nodup_cons] at hnd
    rcases List.mem_cons.mp hb with rfl | hbt
    · show nib (applyBytes (buf.set (tag b - 1) (b &&& 0xF)) t) (tag b - 1) = b &&& 0xF
      rw [applyBytes_nib_not_mem t _ _
            (fun y hy => (hall y (by simp [hy])).1)
            (by have : tag b - 1 + 1 = tag b := by omega
                rw [this]; exact hnd.1),
          nib_set_eq _ _ (by omega)]
    · show nib (applyBytes (buf.set (tag z - 1) (z &&& 0xF)) t) (tag b - 1) = b &&& 0xF
      exact ih _ (by rw [List.length_set]; exact hlen)
        (fun y hy => hall y (by simp [hy])) hnd.2 b hbt

theorem readLoop_append_mid (ys : List Nat) :
    ∀ fuel buf cnt rest, (∀ y ∈ ys, midByte y) → ys.length ≤ fuel →
      readLoop fuel buf cnt (ys ++ rest) =
        readLoop (fuel - ys.length) (applyBytes buf ys) (cnt + ys.length) rest := by
  induction ys with
  | nil => intro fuel buf cnt rest _ _; rfl
  | cons y t ih =>
    intro fuel buf cnt rest hall hlen
    obtain ⟨fuel0, rfl⟩ : ∃ f, fuel = f + 1 := by
      cases fuel with
      | zero => simp at hlen
      | succ f => exact ⟨f, rfl⟩
    have hy := hall y (by simp)
    have hy0 : y ≠ 0 := midByte_ne_zero hy
    obtain ⟨hy256, hy1, hy13⟩ := hy
    show readLoop (fuel0 + 1) buf cnt (y :: (t ++ rest)) = _
    rw [show readLoop (fuel0 + 1) buf cnt (y :: (t ++ rest)) =
          readLoop fuel0 (buf.set (tag y - 1) (y &&& 0xF)) (cnt + 1) (t ++ rest) by
        simp only [readLoop]
        rw [if_neg hy0, if_neg (by omega : ¬(tag y = 0 ∨ tag y = 0xF)),
            if_neg (by omega : ¬tag y = 0xE)]]
    rw [ih fuel0 _ (cnt + 1) rest (fun z hz => hall z (by simp [hz]))
          (by simp only [List.length_cons] at hlen; omega)]
    have h1 : fuel0 + 1 - (y :: t).length = fuel0 - t.length := by
      simp only [List.length_cons]; omega
    have h2 : cnt + (y :: t).length = cnt + 1 + t.length := by
      simp only [List.length_cons]; omega
    rw [h1, h2]
    rfl

theorem readLoop_consumed_le :
    ∀ fuel buf cnt input, input.length ≤ (readLoop fuel buf cnt input).2.2.length + fuel := by
  intro fuel
  induction fuel with
  | zero => intro buf cnt input; simp [readLoop]
  | succ f ih =>
    intro buf cnt input
    cases input with
    | nil => simp [readLoop]
    | cons b rest =>
      simp only [readLoop]
      split
      · simp
      · split
        · simp
        · split
          · split
            · simp
            · simp
          · have := ih (List.set buf (tag b - 1) (b &&& 0xF)) (cnt + 1) rest
            simp only [List.length_cons]
            omega

theorem readLoop_rest_le :
    ∀ fuel buf cnt input, (readLoop fuel buf cnt input).2.2.length ≤ input.length := by
  intro fuel
  induction fuel with
  | zero => intro buf cnt input; simp [readLoop]
  | succ f ih =>
    intro buf cnt input
    cases input with
    | nil => simp [readLoop]
    | cons b rest =>
      simp only [readLoop]
      split
      · simp
      · split
        · simp
        · split
          · split
            · simp
            · simp
          · have := ih (List.set buf (tag b - 1) (b &&& 0xF)) (cnt + 1) rest
            simp only [List.length_cons]
            omega

theorem readLoop_complete_consumed :
    ∀ fuel buf cnt input r buf2 rest2, readLoop fuel buf cnt input = (r, buf2, rest2) →
      r = ReadResult.complete → 13 ≤ cnt + (input.length - rest2.length) := by
  intro fuel
  induction fuel with
  | zero =>
    intro buf cnt input r buf2 rest2 heq hr
    subst hr
    simp [readLoop] at heq
  | succ f ih =>
    intro buf cnt input r buf2 rest2 heq hr
    subst hr
    cases input with
    | nil => simp [readLoop] at heq
    | cons b rest =>
      simp only [readLoop] at heq
      split at heq
      · simp at heq
      · split at heq
        · simp at heq
        · split at heq
          · split at heq
            · simp at heq
            · rename_i hterm hcnt
              have hrest : rest2 = rest := by
                have h3 := congrArg (fun p => p.2.2) heq
                simp only at h3
                exact h3.symm
              subst hrest
              simp only [List.length_cons]
              omega
          · have hle : rest2.length ≤ rest.length := by
              have := readLoop_rest_le f (List.set buf (tag b - 1) (b &&& 0xF)) (cnt + 1) rest
              rw [heq] at this
              exact this
            have h2 := ih (List.set buf (tag b - 1) (b &&& 0xF)) (cnt + 1) rest
              ReadResult.complete buf2 rest2 heq rfl
            simp only [List.length_cons]
            omega

end SerialMeter

namespace SerialMeter

theorem and_shift_ne_iff (x p : Nat) : (x &&& (1 <<< p) ≠ 0) ↔ x.testBit p = true := by
  rw [Nat.one_shiftLeft, Nat.and_two_pow]
  cases hx : x.testBit p
  · simp
  · simp only [Bool.toNat_true, one_mul, ne_eq]
    constructor
    · intro _
      trivial
    · intro _
      positivity

theorem attr_foldl_testBit (buf : List Nat) (l : List Nat) (acc : Nat) (n : Nat) :
    ((l.foldl (fun attributes bit =>
        if nib buf (attrByte bit) &&& (1 <<< (bit % 4)) ≠ 0 then attributes ||| (1 <<< bit)
        else attributes) acc).testBit n)
      = (acc.testBit n ||
         (decide (n ∈ l) && (nib buf (attrByte n)).testBit (n % 4))) := by
  induction l generalizing acc with
  | nil => simp
  | cons b t ih =>
    simp only [List.foldl_cons]
    rw [ih]
    by_cases hbn : b = n
    · subst hbn
      by_cases hc : nib buf (attrByte b) &&& (1 <<< (b % 4)) ≠ 0
      · rw [if_pos hc]
        have hcb := (and_shift_ne_iff ..).mp hc
        simp [Nat.testBit_or, Nat.one_shiftLeft, Nat.testBit_two_pow, hcb]
      · rw [if_neg hc]
        have hcb : (nib buf (attrByte b)).testBit (b % 4) = false := by
          rcases hx : (nib buf (attrByte b)).testBit (b % 4) with _ | _
          · rfl
          · exact absurd ((and_shift_ne_iff ..).mpr hx) hc
        simp [hcb]
    · have hmem : decide (n ∈ b :: t) = decide (n ∈ t) := by
        simp [List.mem_cons, Ne.symm hbn]
      by_cases hc : nib buf (attrByte b) &&& (1 <<< (b % 4)) ≠ 0
      · rw [if_pos hc]
        simp [Nat.testBit_or, Nat.one_shiftLeft, Nat.testBit_two_pow, hbn, Ne.symm hbn, hmem]
      · rw [if_neg hc, hmem]

theorem decode_attributes_testBit (buf : List Nat) (n : Nat) :
    (decode_attributes buf).testBit n
      = (decide (n < 24) && (nib buf (attrByte n)).testBit (n % 4)) := by
  unfold decode_attributes
  rw [attr_foldl_testBit]
  simp [List.mem_range]

theorem digit_lookup_not_mem (v : Nat) (hv : v ∉ lcd_segments) : digit_lookup v = -1 := by
  have hnone : (List.range 12).find? (fun n => lcd_segments.getD n 0 = v) = none := by
    rw [List.find?_eq_none]
    intro n hn hpn
    have hn12 : n < 12 := List.mem_range.mp hn
    interval_cases n <;> simp_all [lcd_segments]
  unfold digit_lookup
  rw [hnone]

theorem digit_lookup_cases (v : Nat) :
    digit_lookup v = -1 ∨ (0 ≤ digit_lookup v ∧ digit_lookup v ≤ 11) := by
  unfold digit_lookup
  split
  · rename_i n hfind
    right
    have hn : n < 12 := List.mem_range.mp (List.mem_of_find?_eq_some hfind)
    exact ⟨Int.natCast_nonneg n, by exact_mod_cast Nat.le_of_lt_succ hn⟩
  · left; rfl

theorem question_not_mem_preTok (buf : List Nat) (n : Nat) :
    OutTok.question ∉ preTok buf n := by
  unfold preTok
  split
  · split <;> simp
  · simp

theorem digitTok_ne_question {val : Int} (h : val ≤ 11) :
    digitTok val ≠ OutTok.question := by
  unfold digitTok
  split_ifs with h1 h2 h3
  · simp
  · simp
  · simp
  · intro _
    omega

theorem display_loop_no_question (buf : List Nat) :
    ∀ l, OutTok.question ∉ (display_loop buf l).1 := by
  intro l
  induction l with
  | nil => simp [display_loop]
  | cons n rest ih =>
    simp only [display_loop]
    split
    · intro hmem
      rcases List.mem_append.mp hmem with h | h
      · exact question_not_mem_preTok buf n h
      · simp at h
    · rename_i hval
      intro hmem
      rcases List.mem_append.mp hmem with h | h
      · exact question_not_mem_preTok buf n h
      · rcases List.mem_cons.mp h with h | h
        · rcases digit_lookup_cases (segment_code (nib buf n) (nib buf (n + 1))) with hc | hc
          · exact hval hc
          · exact digitTok_ne_question hc.2 h.symm
        · exact ih h

theorem display_loop_first_invalid (buf : List Nat) (n : Nat) (rest2 : List Nat) :
    ∀ pres, (∀ m ∈ pres, decode_digit (nib buf m) (nib buf (m + 1)) ≠ -1) →
      decode_digit (nib buf n) (nib buf (n + 1)) = -1 →
      display_loop buf (pres ++ n :: rest2) =
        ((display_loop buf pres).1 ++ preTok buf n ++
          [OutTok.unknown (nib buf n) (nib buf (n + 1))], -1) := by
  intro pres
  induction pres with
  | nil =>
    intro _ hinv
    simp only [List.nil_append, display_loop]
    rw [if_pos hinv]
  | cons m t ih =>
    intro hvalid hinv
    have hm := hvalid m (by simp)
    simp only [List.cons_append, display_loop, List.append_eq]
    rw [if_neg hm, if_neg hm, ih (fun y hy => hvalid y (by simp [hy])) hinv]
    simp [List.append_assoc]

end SerialMeter

namespace SerialMeter

/-- C2: for the concrete input byte sequence 27 3D 42 57 69 75 80 95 A2 B0
C4 D0 E8 (the tag-1 byte is absent), framing succeeds and consumes the whole
sequence, the display renders as the digit symbols 0, 4, 7, 1 with a decimal
point after the 2nd digit (the dot token precedes the third digit token) and
no minus sign, the decimal point being derived from bit 3 of frame index 5,
and the attribute mask is exactly kilo, ohms, and the reserved E8 flag. -/
theorem c2_end_to_end_example :
    read_packet [0x27, 0x3D, 0x42, 0x57, 0x69, 0x75, 0x80, 0x95, 0xA2, 0xB0, 0xC4, 0xD0, 0xE8] =
      (ReadResult.complete, [0, 7, 13, 2, 7, 9, 5, 0, 5, 2, 0, 4, 0, 8], []) ∧
    print_display_number [0, 7, 13, 2, 7, 9, 5, 0, 5, 2, 0, 4, 0, 8] =
      ([OutTok.dig 0, OutTok.dig 4, OutTok.dot, OutTok.dig 7, OutTok.dig 1], 0) ∧
    nib [0, 7, 13, 2, 7, 9, 5, 0, 5, 2, 0, 4, 0, 8] 5 &&& 0x8 ≠ 0 ∧
    decode_attributes [0, 7, 13, 2, 7, 9, 5, 0, 5, 2, 0, 4, 0, 8] =
      (ATTR_KILO ||| ATTR_OHMS ||| ATTR_UNK_E8) := by
  decide

/-- C3: `decode_digit` is the pure function looking up the segment code
`((byte1 & 0x7) << 4) | byte2` in the 12-entry table: every table entry maps
back to its own symbol index (in particular `decode_digit 0x7 0xD = 0` and
`decode_digit 0x0 0x5 = 1`), and every segment code absent from the table
yields the invalid marker `-1`. -/
theorem c3_decode_digit_table :
    (∀ b1 b2, decode_digit b1 b2 = digit_lookup (((b1 &&& 0x7) <<< 4) ||| b2)) ∧
    (∀ n, n < 12 → ∀ b1 b2, segment_code b1 b2 = lcd_segments.getD n 0 →
      decode_digit b1 b2 = (n : Int)) ∧
    decode_digit 0x7 0xD = 0 ∧
    decode_digit 0x0 0x5 = 1 ∧
    (∀ b1 b2, segment_code b1 b2 ∉ lcd_segments → decode_digit b1 b2 = -1) := by
  refine ⟨fun b1 b2 => rfl, ?_, by decide, by decide, ?_⟩
  · intro n hn b1 b2 hcode
    have h12 : ∀ m, m < 12 → digit_lookup (lcd_segments.getD m 0) = (m : Int) := by decide
    unfold decode_digit
    rw [hcode]
    exact h12 n hn
  · intro b1 b2 hmem
    exact digit_lookup_not_mem _ hmem

/-- C3 witness: a table entry (0x5B at index 2) decoded from nibbles 0x5,
0xB, and a code outside the table (0x12) decoded to the invalid marker. -/
theorem c3_witness : decode_digit 0x5 0xB = 2 ∧ decode_digit 0x1 0x2 = -1 :=
  ⟨c3_decode_digit_table.2.1 2 (by decide) 0x5 0xB (by decide),
   c3_decode_digit_table.2.2.2.2 0x1 0x2 (by decide)⟩

/-- C10: for every pair of inputs `decode_digit` returns `-1` or a value in
0..11, so the `val > 11` branch of `print_display_number` that would print
"?" is unreachable: no output of `print_display_number` ever contains the
question-mark token. -/
theorem c10_digit_range_question_unreachable :
    (∀ b1 b2, decode_digit b1 b2 = -1 ∨
      (0 ≤ decode_digit b1 b2 ∧ decode_digit b1 b2 ≤ 11)) ∧
    (∀ buf, OutTok.question ∉ (print_display_number buf).1) :=
  ⟨fun _ _ => digit_lookup_cases _, fun buf => display_loop_no_question buf _⟩

end SerialMeter

namespace SerialMeter

/-- C4: for every frame and logical bit n in 0..23, bit n of
`decode_attributes` equals bit `n % 4` of the nibble at frame index
`attrByte n = (n < 4) ? 0 : n / 4 + 8`; bits 24 and above are never set;
the output depends only on frame indices 0 and 9–13; and flipping a single
bit p of one of those nibbles toggles exactly the one corresponding
attribute bit and no others. -/
theorem c4_attribute_bit_extraction :
    (∀ buf n, n < 24 →
      (decode_attributes buf).testBit n = (nib buf (attrByte n)).testBit (n % 4)) ∧
    (∀ buf n, 24 ≤ n → (decode_attributes buf).testBit n = false) ∧
    (∀ buf1 buf2, (∀ j ∈ [0, 9, 10, 11, 12, 13], nib buf1 j = nib buf2 j) →
      decode_attributes buf1 = decode_attributes buf2) ∧
    (∀ buf j p, buf.length = 14 → (j = 0 ∨ (9 ≤ j ∧ j ≤ 13)) → p < 4 →
      ∀ n, n < 24 →
        (decode_attributes (buf.set j (nib buf j ^^^ (1 <<< p)))).testBit n =
          (if n = (if j = 0 then p else (j - 8) * 4 + p)
           then !((decode_attributes buf).testBit n)
           else (decode_attributes buf).testBit n)) := by
  have hsrc : ∀ m, m < 24 → attrByte m ∈ [0, 9, 10, 11, 12, 13] := by decide
  refine ⟨?_, ?_, ?_, ?_⟩
  · intro buf n hn
    rw [decode_attributes_testBit]
    simp [hn]
  · intro buf n hn
    rw [decode_attributes_testBit]
    rw [decide_eq_false (by omega : ¬n < 24), Bool.false_and]
  · intro buf1 buf2 hagree
    apply Nat.eq_of_testBit_eq
    intro i
    rw [decode_attributes_testBit, decode_attributes_testBit]
    by_cases hi : i < 24
    · rw [hagree _ (hsrc i hi)]
    · simp [hi]
  · intro buf j p hlen hj hp n hn
    have key : ∀ p2, p2 < 4 → ∀ n2, n2 < 24 →
        ((attrByte n2 = j ∧ n2 % 4 = p2) ↔
          n2 = (if j = 0 then p2 else (j - 8) * 4 + p2)) := by
      rcases hj with rfl | hj9
      · decide
      · obtain ⟨h9, h13⟩ := hj9
        interval_cases j <;> decide
    have hkey := key p hp n hn
    rw [decode_attributes_testBit, decode_attributes_testBit]
    simp only [decide_eq_true hn, Bool.true_and]
    by_cases hn0 : n = (if j = 0 then p else (j - 8) * 4 + p)
    · rw [if_pos hn0]
      obtain ⟨haj, hap⟩ := hkey.mpr hn0
      rw [haj, hap, nib_set_eq _ _ (by omega)]
      simp [Nat.testBit_xor, Nat.one_shiftLeft, Nat.testBit_two_pow]
    · rw [if_neg hn0]
      have hnot : ¬(attrByte n = j ∧ n % 4 = p) := fun hcontra => hn0 (hkey.mp hcontra)
      by_cases haj : attrByte n = j
      · have hap : n % 4 ≠ p := fun hp2 => hnot ⟨haj, hp2⟩
        rw [haj, nib_set_eq _ _ (by omega)]
        simp [Nat.testBit_xor, Nat.one_shiftLeft, Nat.testBit_two_pow, Ne.symm hap]
      · rw [nib_set_ne _ _ fun heq => haj heq.symm]

/-- C4 witness: on the worked example frame, attribute bit 5 (kilo) is read
from bit 1 of frame index 9 and is set; the frame extended past index 13
decodes identically; and flipping bit 1 of the nibble at index 9 toggles
exactly attribute bit 5 (here to false). -/
theorem c4_witness :
    (decode_attributes [0, 7, 13, 2, 7, 9, 5, 0, 5, 2, 0, 4, 0, 8]).testBit 5 = true ∧
    decode_attributes [0, 7, 13, 2, 7, 9, 5, 0, 5, 2, 0, 4, 0, 8] =
      decode_attributes ([0, 7, 13, 2, 7, 9, 5, 0, 5, 2, 0, 4, 0, 8] ++ [9, 9]) ∧
    (decode_attributes
        (List.set [0, 7, 13, 2, 7, 9, 5, 0, 5, 2, 0, 4, 0, 8] 9
          (nib [0, 7, 13, 2, 7, 9, 5, 0, 5, 2, 0, 4, 0, 8] 9 ^^^ (1 <<< 1)))).testBit 5 =
      false :=
  ⟨(c4_attribute_bit_extraction.1 [0, 7, 13, 2, 7, 9, 5, 0, 5, 2, 0, 4, 0, 8] 5
      (by decide)).trans (by decide),
   c4_attribute_bit_extraction.2.2.1 [0, 7, 13, 2, 7, 9, 5, 0, 5, 2, 0, 4, 0, 8]
     ([0, 7, 13, 2, 7, 9, 5, 0, 5, 2, 0, 4, 0, 8] ++ [9, 9]) (by decide),
   (c4_attribute_bit_extraction.2.2.2 [0, 7, 13, 2, 7, 9, 5, 0, 5, 2, 0, 4, 0, 8] 9 1
      (by decide) (Or.inr (by decide)) (by decide) 5 (by decide)).trans (by decide)⟩

end SerialMeter

namespace SerialMeter

theorem nib_replicate_zero (j : Nat) : nib (List.replicate 14 0) j = 0 := by
  unfold nib
  rw [List.getD_eq_getElem?_getD, List.getElem?_replicate]
  split <;> rfl

/-- C1 (amended): for every sequence of 13 or 14 valid bytes with pairwise
distinct tags whose last byte has tag 14, `read_packet` consumes the whole
sequence, emits exactly one complete frame (return code 0), and afterwards
the frame holds `byte & 0xF` at index `tag - 1` for every received byte,
with the positions of unreceived tags left at their zero default. -/
theorem c1_complete_frame_contents (ys : List Nat) (b : Nat)
    (hlen : ys.length = 12 ∨ ys.length = 13)
    (hv : ∀ y ∈ ys ++ [b], y < 256 ∧ 1 ≤ tag y ∧ tag y ≤ 14)
    (hnd : ((ys ++ [b]).map tag).Nodup)
    (hb : tag b = 0xE) :
    read_packet (ys ++ [b]) =
      (ReadResult.complete, applyBytes (List.replicate 14 0) (ys ++ [b]), []) ∧
    return_code (read_packet (ys ++ [b])).1 = 0 ∧
    (∀ y ∈ ys ++ [b],
      nib (applyBytes (List.replicate 14 0) (ys ++ [b])) (tag y - 1) = y &&& 0xF) ∧
    (∀ j, (j + 1) ∉ (ys ++ [b]).map tag →
      nib (applyBytes (List.replicate 14 0) (ys ++ [b])) j = 0) := by
  have hnd2 : (ys.map tag ++ [tag b]).Nodup := by
    simpa using hnd
  have hdisj := (List.nodup_append.mp hnd2).2.2
  have hmid : ∀ y ∈ ys, midByte y := by
    intro y hy
    have h1 := hv y (List.mem_append_left _ hy)
    refine ⟨h1.1, h1.2.1, ?_⟩
    have hne : tag y ≠ 0xE := by
      intro h14
      exact hdisj (List.mem_map_of_mem tag hy) (by simp [h14, hb])
    omega
  have hfirst : read_packet (ys ++ [b]) =
      (ReadResult.complete, applyBytes (List.replicate 14 0) (ys ++ [b]), []) := by
    unfold read_packet
    rw [readLoop_append_mid ys 15 (List.replicate 14 0) 0 [b] hmid (by omega)]
    obtain ⟨k, hk⟩ : ∃ k, 15 - ys.length = k + 1 := ⟨14 - ys.length, by omega⟩
    have hb0 : b ≠ 0 := by
      intro h0
      rw [h0] at hb
      exact absurd hb (by decide)
    rw [hk]
    simp only [readLoop]
    rw [if_neg hb0, if_neg (by omega : ¬(tag b = 0 ∨ tag b = 0xF)), if_pos hb,
        if_neg (by omega : ¬(0 + ys.length + 1 < 13))]
    simp [applyBytes, List.foldl_append]
  refine ⟨hfirst, by rw [hfirst]; rfl, ?_, ?_⟩

  · exact applyBytes_nib_mem (ys ++ [b]) (List.replicate 14 0) (by simp)
      (fun y hy => (hv y hy).2) hnd
  · intro j hj
    rw [applyBytes_nib_not_mem (ys ++ [b]) _ j (fun y hy => (hv y hy).2.1) hj]
    exact nib_replicate_zero j

/-- C1 witness: the worked 13-byte example, split as 12 mid bytes plus the
terminal byte, yields the complete frame computed by `read_packet`. -/
theorem c1_witness :
    read_packet ([0x27, 0x3D, 0x42, 0x57, 0x69, 0x75, 0x80, 0x95, 0xA2, 0xB0, 0xC4, 0xD0]
        ++ [0xE8]) =
      (ReadResult.complete, [0, 7, 13, 2, 7, 9, 5, 0, 5, 2, 0, 4, 0, 8], []) :=
  (c1_complete_frame_contents
    [0x27, 0x3D, 0x42, 0x57, 0x69, 0x75, 0x80, 0x95, 0xA2, 0xB0, 0xC4, 0xD0] 0xE8
    (Or.inl (by decide)) (by decide) (by decide) (by decide)).1.trans (by decide)

/-- C1 counterexample: 14 valid bytes, 13 distinct tags, terminal tag 14,
but tag 2 arrives twice with different data nibbles; `read_packet` emits a
complete frame in which index 1 holds the second nibble (2), so the first
received byte 0x21 violates `frame[tag - 1] = byte & 0xF`. -/
theorem c1_counterexample :
    List.map tag [0x21, 0x22, 0x31, 0x41, 0x51, 0x61, 0x71, 0x81, 0x91, 0xA1, 0xB1, 0xC1,
        0xD1, 0xE1] = [2, 2, 3, 4, 5, 6, 7, 8, 9, 10, 11, 12, 13, 14] ∧
    (List.map tag [0x21, 0x22, 0x31, 0x41, 0x51, 0x61, 0x71, 0x81, 0x91, 0xA1, 0xB1, 0xC1,
        0xD1, 0xE1]).dedup.length = 13 ∧
    read_packet [0x21, 0x22, 0x31, 0x41, 0x51, 0x61, 0x71, 0x81, 0x91, 0xA1, 0xB1, 0xC1,
        0xD1, 0xE1] =
      (ReadResult.complete, [0, 2, 1, 1, 1, 1, 1, 1, 1, 1, 1, 1, 1, 1], []) ∧
    nib [0, 2, 1, 1, 1, 1, 1, 1, 1, 1, 1, 1, 1, 1] (tag 0x21 - 1) ≠ 0x21 &&& 0xF := by
  decide

/-- C5 (amended): whenever `read_packet` emits a complete frame, at least 13
bytes (counted with multiplicity, not 13 distinct tags) were consumed in
that call; and a terminal tag-14 byte arriving as the k-th accepted byte
with k < 13 yields the short-frame error instead. -/
theorem c5_complete_needs_13_bytes :
    (∀ input, (read_packet input).1 = ReadResult.complete →
      13 ≤ input.length - (read_packet input).2.2.length) ∧
    (∀ ys b rest, (∀ y ∈ ys, midByte y) → ys.length ≤ 11 → tag b = 0xE →
      read_packet (ys ++ b :: rest) =
        (ReadResult.shortFrame,
          (applyBytes (List.replicate 14 0) ys).set (tag b - 1) (b &&& 0xF), rest)) := by
  constructor
  · intro input hcompl
    simpa using readLoop_complete_consumed 15 (List.replicate 14 0) 0 input
      (read_packet input).1 (read_packet input).2.1 (read_packet input).2.2 rfl hcompl
  · intro ys b rest hmid hlen hb
    unfold read_packet
    rw [readLoop_append_mid ys 15 (List.replicate 14 0) 0 (b :: rest) hmid (by omega)]
    obtain ⟨k, hk⟩ : ∃ k, 15 - ys.length = k + 1 := ⟨14 - ys.length, by omega⟩
    have hb0 : b ≠ 0 := by
      intro h0
      rw [h0] at hb
      exact absurd hb (by decide)
    rw [hk]
    simp only [readLoop]
    rw [if_neg hb0, if_neg (by omega : ¬(tag b = 0 ∨ tag b = 0xF)), if_pos hb,
        if_pos (by omega : 0 + ys.length + 1 < 13)]

/-- C5 witness: a completed 13-byte attempt consumed 13 bytes, and a
terminal byte arriving second (after one accepted byte) yields the
short-frame error. -/
theorem c5_witness :
    13 ≤ ([0x21, 0x21, 0x21, 0x21, 0x21, 0x21, 0x21, 0x21, 0x21, 0x21, 0x21, 0x21,
        0xE0] : List Nat).length -
      (read_packet [0x21, 0x21, 0x21, 0x21, 0x21, 0x21, 0x21, 0x21, 0x21, 0x21, 0x21,
        0x21, 0xE0]).2.2.length ∧
    read_packet ([0x21] ++ 0xE0 :: []) =
      (ReadResult.shortFrame, [0, 1, 0, 0, 0, 0, 0, 0, 0, 0, 0, 0, 0, 0], []) :=
  ⟨c5_complete_needs_13_bytes.1
      [0x21, 0x21, 0x21, 0x21, 0x21, 0x21, 0x21, 0x21, 0x21, 0x21, 0x21, 0x21, 0xE0]
      (by decide),
   (c5_complete_needs_13_bytes.2 [0x21] 0xE0 [] (by decide) (by decide)
      (by decide)).trans (by decide)⟩

/-- C5 counterexample: twelve copies of byte 0x21 followed by the terminal
0xE0 complete successfully (13 bytes were read), yet only two distinct tags
(2 and 14) were received, so only two frame positions were populated from a
real byte — not 13. -/
theorem c5_counterexample :
    read_packet [0x21, 0x21, 0x21, 0x21, 0x21, 0x21, 0x21, 0x21, 0x21, 0x21, 0x21, 0x21,
        0xE0] =
      (ReadResult.complete, [0, 1, 0, 0, 0, 0, 0, 0, 0, 0, 0, 0, 0, 0], []) ∧
    (List.map tag [0x21, 0x21, 0x21, 0x21, 0x21, 0x21, 0x21, 0x21, 0x21, 0x21, 0x21, 0x21,
        0xE0]).dedup = [2, 14] := by
  decide

/-- C8: a zero byte arriving after any run of accepted non-terminal bytes
makes `read_packet` return the power-on signal at once, leaving the rest of
the stream unconsumed; and every call of `read_packet` starts from the
all-zero frame buffer, so the state accumulated before the zero byte is
discarded. -/
theorem c8_zero_byte_power_on (ys rest : List Nat)
    (hmid : ∀ y ∈ ys, midByte y) (hlen : ys.length < 15) :
    read_packet (ys ++ 0 :: rest) =
      (ReadResult.powerOn, applyBytes (List.replicate 14 0) ys, rest) ∧
    (∀ input, read_packet input = readLoop 15 (List.replicate 14 0) 0 input) := by
  refine ⟨?_, fun input => rfl⟩
  unfold read_packet
  rw [readLoop_append_mid ys 15 (List.replicate 14 0) 0 (0 :: rest) hmid (by omega)]
  obtain ⟨k, hk⟩ : ∃ k, 15 - ys.length = k + 1 := ⟨14 - ys.length, by omega⟩
  rw [hk]
  simp only [readLoop]
  simp

/-- C8 witness: a zero byte after one accepted byte yields the power-on
signal, with the byte after the zero left unconsumed. -/
theorem c8_witness :
    read_packet ([0x27] ++ 0 :: [0x33]) =
      (ReadResult.powerOn, [0, 7, 0, 0, 0, 0, 0, 0, 0, 0, 0, 0, 0, 0], [0x33]) :=
  (c8_zero_byte_power_on [0x27] [0x33] (by decide) (by decide)).1.trans (by decide)

/-- C9: fifteen accepted non-terminal bytes exhaust the loop, so
`read_packet` reports the frame-too-long error with everything after the
15th byte unconsumed; in general no call of `read_packet` ever consumes
more than 15 bytes, so a 16th byte is never accepted. -/
theorem c9_frame_too_long (ys rest : List Nat)
    (hmid : ∀ y ∈ ys, midByte y) (hlen : ys.length = 15) :
    read_packet (ys ++ rest) =
      (ReadResult.tooLong, applyBytes (List.replicate 14 0) ys, rest) ∧
    (∀ input, input.length ≤ (read_packet input).2.2.length + 15) := by
  refine ⟨?_, fun input => readLoop_consumed_le 15 (List.replicate 14 0) 0 input⟩
  unfold read_packet
  rw [readLoop_append_mid ys 15 (List.replicate 14 0) 0 rest hmid (by omega)]
  rw [hlen]
  simp [readLoop]

/-- C9 witness: fifteen tag-2 bytes followed by one more byte yield the
frame-too-long error with the 16th byte unconsumed. -/
theorem c9_witness :
    read_packet ([0x21, 0x21, 0x21, 0x21, 0x21, 0x21, 0x21, 0x21, 0x21, 0x21, 0x21, 0x21,
        0x21, 0x21, 0x21] ++ [0x42]) =
      (ReadResult.tooLong, [0, 1, 0, 0, 0, 0, 0, 0, 0, 0, 0, 0, 0, 0], [0x42]) :=
  (c9_frame_too_long
    [0x21, 0x21, 0x21, 0x21, 0x21, 0x21, 0x21, 0x21, 0x21, 0x21, 0x21, 0x21, 0x21, 0x21,
      0x21] [0x42] (by decide) (by decide)).1.trans (by decide)

end SerialMeter

namespace SerialMeter

/-- C6 (amended): when all four digit pairs decode, the output of
`print_display_number` is: an optional minus sign (bit 3 of the first pair)
before the first digit, then for each of pairs 2–4 an optional decimal
point — emitted immediately BEFORE the digit of that pair, i.e. following the
previous digit — controlled by bit 3 of the first nibble of that pair; a clear
bit emits nothing; and bit 3 of the first nibble never affects the decoded
digit symbol. -/
theorem c6_sign_and_decimal_bit (buf : List Nat)
    (h1 : decode_digit (nib buf 1) (nib buf 2) ≠ -1)
    (h3 : decode_digit (nib buf 3) (nib buf 4) ≠ -1)
    (h5 : decode_digit (nib buf 5) (nib buf 6) ≠ -1)
    (h7 : decode_digit (nib buf 7) (nib buf 8) ≠ -1) :
    print_display_number buf =
      ((if nib buf 1 &&& 0x8 ≠ 0 then [OutTok.minus] else []) ++
        digitTok (decode_digit (nib buf 1) (nib buf 2)) ::
          ((if nib buf 3 &&& 0x8 ≠ 0 then [OutTok.dot] else []) ++
            digitTok (decode_digit (nib buf 3) (nib buf 4)) ::
              ((if nib buf 5 &&& 0x8 ≠ 0 then [OutTok.dot] else []) ++
                digitTok (decode_digit (nib buf 5) (nib buf 6)) ::
                  ((if nib buf 7 &&& 0x8 ≠ 0 then [OutTok.dot] else []) ++
                    [digitTok (decode_digit (nib buf 7) (nib buf 8))]))), 0) ∧
    (∀ b1 b2, decode_digit (b1 ^^^ 0x8) b2 = decode_digit b1 b2) ∧
    (∀ b1 b2, decode_digit (b1 &&& 0x7) b2 = decode_digit b1 b2) := by
  refine ⟨?_, ?_, ?_⟩
  · show display_loop buf [1, 3, 5, 7] = _
    simp only [display_loop]
    rw [if_neg h1, if_neg h3, if_neg h5, if_neg h7]
    simp [preTok]
  · intro b1 b2
    have hmask : (b1 ^^^ 0x8) &&& 0x7 = b1 &&& 0x7 := by
      rw [Nat.and_xor_distrib_right, (by decide : (0x8 : Nat) &&& 0x7 = 0), Nat.xor_zero]
    unfold decode_digit segment_code
    rw [hmask]
  · intro b1 b2
    have hmask : (b1 &&& 0x7) &&& 0x7 = b1 &&& 0x7 := by
      rw [Nat.and_assoc, (by decide : (0x7 : Nat) &&& 0x7 = 7)]
    unfold decode_digit segment_code
    rw [hmask]

/-- C6 witness: on the worked example frame (decimal bit set only on the
third pair) the rendered output places the dot immediately before the third
digit, and flipping bit 3 of a first nibble leaves the digit unchanged. -/
theorem c6_witness :
    print_display_number [0, 7, 13, 2, 7, 9, 5, 0, 5, 2, 0, 4, 0, 8] =
      ([OutTok.dig 0, OutTok.dig 4, OutTok.dot, OutTok.dig 7, OutTok.dig 1], 0) ∧
    decode_digit (9 ^^^ 0x8) 5 = decode_digit 9 5 := by
  have h := c6_sign_and_decimal_bit [0, 7, 13, 2, 7, 9, 5, 0, 5, 2, 0, 4, 0, 8]
    (by decide) (by decide) (by decide) (by decide)
  exact ⟨h.1.trans (by decide), h.2.1 9 5⟩

/-- C6 counterexample: a frame whose decimal bit is set only on the second
pair (nibble 0xA at index 3) renders as digit, dot, digit, digit, digit —
the dot is emitted before the digit of the second pair (after the first digit),
not after it; the bits of pairs 3 and 4 are clear and produce no dot. -/
theorem c6_counterexample :
    print_display_number [0, 7, 13, 0xA, 7, 2, 7, 0, 5, 0, 0, 0, 0, 0] =
      ([OutTok.dig 0, OutTok.dot, OutTok.dig 4, OutTok.dig 4, OutTok.dig 1], 0) ∧
    nib [0, 7, 13, 0xA, 7, 2, 7, 0, 5, 0, 0, 0, 0, 0] 3 &&& 0x8 ≠ 0 ∧
    nib [0, 7, 13, 0xA, 7, 2, 7, 0, 5, 0, 0, 0, 0, 0] 1 &&& 0x8 = 0 ∧
    nib [0, 7, 13, 0xA, 7, 2, 7, 0, 5, 0, 0, 0, 0, 0] 5 &&& 0x8 = 0 ∧
    nib [0, 7, 13, 0xA, 7, 2, 7, 0, 5, 0, 0, 0, 0, 0] 7 &&& 0x8 = 0 := by
  decide

/-- C7 (amended): when the pair at index n is the first digit pair that
decodes to the invalid marker, `print_display_number` emits the tokens of
the pairs before it, the sign/decimal prefix of that pair, and the unknown-digit
error naming the observed nibbles, then returns -1 without decoding the
remaining pairs; `main` then skips the attributes, discarding the reading. -/
theorem c7_invalid_digit_truncates (buf : List Nat) (pres rest2 : List Nat) (n : Nat)
    (hsplit : [1, 3, 5, 7] = pres ++ n :: rest2)
    (hvalid : ∀ m ∈ pres, decode_digit (nib buf m) (nib buf (m + 1)) ≠ -1)
    (hinv : decode_digit (nib buf n) (nib buf (n + 1)) = -1) :
    print_display_number buf =
      ((display_loop buf pres).1 ++ preTok buf n ++
        [OutTok.unknown (nib buf n) (nib buf (n + 1))], -1) ∧
    main_step buf =
      ((display_loop buf pres).1 ++ preTok buf n ++
        [OutTok.unknown (nib buf n) (nib buf (n + 1))], none) := by
  have h1 : print_display_number buf =
      ((display_loop buf pres).1 ++ preTok buf n ++
        [OutTok.unknown (nib buf n) (nib buf (n + 1))], -1) := by
    unfold print_display_number
    rw [hsplit]
    exact display_loop_first_invalid buf n rest2 pres hvalid hinv
  refine ⟨h1, ?_⟩
  unfold main_step
  rw [h1]
  simp

/-- C7 witness: a frame whose first pair decodes to 0 and whose second pair
holds the unknown code 0x01; the output is the first digit followed by the
error token, the return code is -1, and the attributes are skipped. -/
theorem c7_witness :
    print_display_number [0, 7, 13, 0, 1, 2, 7, 0, 5, 0, 0, 0, 0, 0] =
      ([OutTok.dig 0, OutTok.unknown 0 1], -1) ∧
    main_step [0, 7, 13, 0, 1, 2, 7, 0, 5, 0, 0, 0, 0, 0] =
      ([OutTok.dig 0, OutTok.unknown 0 1], none) := by
  have h := c7_invalid_digit_truncates [0, 7, 13, 0, 1, 2, 7, 0, 5, 0, 0, 0, 0, 0]
    [1] [5, 7] 3 rfl (by decide) (by decide)
  exact ⟨h.1.trans (by decide), h.2.trans (by decide)⟩

/-- C7 counterexample: a frame whose first pair holds the unknown code 0x01
while the remaining three pairs decode to 4, 4, 1; `print_display_number`
emits only the error token, returns -1 — the remaining digits are neither
decoded nor reported — and `main` discards the reading entirely (no
attributes), instead of producing a partial reading with the other digits
and flags intact. -/
theorem c7_counterexample :
    print_display_number [0, 0, 1, 2, 7, 2, 7, 0, 5, 0, 0, 0, 0, 0] =
      ([OutTok.unknown 0 1], -1) ∧
    decode_digit (nib [0, 0, 1, 2, 7, 2, 7, 0, 5, 0, 0, 0, 0, 0] 3)
      (nib [0, 0, 1, 2, 7, 2, 7, 0, 5, 0, 0, 0, 0, 0] 4) = 4 ∧
    decode_digit (nib [0, 0, 1, 2, 7, 2, 7, 0, 5, 0, 0, 0, 0, 0] 5)
      (nib [0, 0, 1, 2, 7, 2, 7, 0, 5, 0, 0, 0, 0, 0] 6) = 4 ∧
    decode_digit (nib [0, 0, 1, 2, 7, 2, 7, 0, 5, 0, 0, 0, 0, 0] 7)
      (nib [0, 0, 1, 2, 7, 2, 7, 0, 5, 0, 0, 0, 0, 0] 8) = 1 ∧
    main_step [0, 0, 1, 2, 7, 2, 7, 0, 5, 0, 0, 0, 0, 0] =
      ([OutTok.unknown 0 1], none) := by
  decide

end SerialMeter
